import Mathlib

/-!
# iPXE build-flag override headers of smee

`ipxe/ipxe/common.h` and `ipxe/ipxe/general.hua.h` are two C preprocessor
override headers.  Each is a sequence of `#define` / `#undef` directives that
is read on top of iPXE's own configuration (the baseline).  This development
embeds

* the two headers, line by line, and the effect the C preprocessor gives their
  directives on a macro table (section `Preproc`), and
* the layered flag-resolution engine that the specification describes
  (registry, layers, `resolve`, `validate`), which has no source file in this
  repository and is modelled from the specification's text (section `Engine`),

and then states and proves the properties of the override layers.
-/

namespace Smee

/-! ## Preproc: the headers and the preprocessor's view of them -/

/-- One physical line of an override header.  The text of a trailing
`/* ... */` comment is not part of the directive and is not recorded; the
`body` of a `#define` is its replacement list (empty for a feature flag). -/
inductive Line where
  | define (name : String) (body : String)
  | undef (name : String)
  | comment
  | blank
deriving DecidableEq, Repr

/-- The file `ipxe/ipxe/common.h`, lines 1 to 39. -/
def common_h : List Line :=
  [ Line.define "DIGEST_CMD" "",
    Line.define "DOWNLOAD_PROTO_HTTPS" "",
    Line.define "IMAGE_TRUST_CMD" "",
    Line.define "NET_PROTO_IPV6" "",
    Line.define "NSLOOKUP_CMD" "",
    Line.define "NTP_CMD" "",
    Line.define "NVO_CMD" "",
    Line.define "PARAM_CMD" "",
    Line.define "PING_CMD" "",
    Line.define "REBOOT_CMD" "",
    Line.define "SANBOOT_PROTO_HTTP" "",
    Line.define "VLAN_CMD" "",
    Line.blank,
    Line.undef "CRYPTO_80211_WEP",
    Line.undef "CRYPTO_80211_WPA2",
    Line.undef "CRYPTO_80211_WPA",
    Line.undef "FCMGMT_CMD",
    Line.undef "IBMGMT_CMD",
    Line.undef "IMAGE_PNG",
    Line.undef "IMAGE_PNM",
    Line.undef "IWMGMT_CMD",
    Line.undef "NET_PROTO_LACP",
    Line.undef "NET_PROTO_STP",
    Line.undef "ROUTE_CMD",
    Line.undef "VNIC_IPOIB",
    Line.blank,
    Line.comment,
    Line.undef "SANBOOT_PROTO_AOE",
    Line.undef "SANBOOT_PROTO_FCP",
    Line.undef "SANBOOT_PROTO_IB_SRP",
    Line.undef "SANBOOT_PROTO_ISCSI",
    Line.undef "USB_EFI",
    Line.undef "USB_HCD_EHCI",
    Line.undef "USB_HCD_UHCI",
    Line.undef "USB_HCD_XHCI",
    Line.undef "USB_KEYBOARD",
    Line.blank,
    Line.define "MAX_MODULES" "16",
    Line.blank ]

/-- The file `ipxe/ipxe/general.hua.h`, lines 1 to 17.  Lines 14 and 15 are
`//` comments (a commented-out `BANNER_TIMEOUT` pair); line 17 ends the file. -/
def general_hua_h : List Line :=
  [ Line.define "DIGEST_CMD" "",
    Line.define "DOWNLOAD_PROTO_HTTPS" "",
    Line.define "IMAGE_TRUST_CMD" "",
    Line.define "NET_PROTO_IPV6" "",
    Line.define "NSLOOKUP_CMD" "",
    Line.define "NTP_CMD" "",
    Line.define "PARAM_CMD" "",
    Line.define "REBOOT_CMD" "",
    Line.define "VLAN_CMD" "",
    Line.undef "IMAGE_COMBOOT",
    Line.undef "NET_PROTO_LACP",
    Line.undef "NET_PROTO_STP",
    Line.blank,
    Line.comment,
    Line.comment,
    Line.blank,
    Line.define "MAX_MODULES" "16" ]

/-- The macro name a line's directive acts on; comment and blank lines have none. -/
def Line.name? : Line → Option String
  | .define n _ => some n
  | .undef n => some n
  | .comment => none
  | .blank => none

/-- The macro names a header's directives act on, in file order. -/
def names (h : List Line) : List String :=
  h.filterMap Line.name?

/-- The preprocessor's macro table: `none` for a name that is not defined,
`some body` for a name defined with replacement list `body`. -/
abbrev MacroTable := String → Option String

/-- The table with no macro defined. -/
def MacroTable.empty : MacroTable := fun _ => none

/-- Effect of one line on the macro table: `#define` binds the name to its
replacement list (taking the place of an earlier definition), `#undef`
removes the name, comment and blank lines do nothing. -/
def applyLine (t : MacroTable) : Line → MacroTable
  | .define n b => fun m => if m = n then some b else t m
  | .undef n => fun m => if m = n then none else t m
  | .comment => t
  | .blank => t

/-- Effect of a whole header: its lines are processed top to bottom. -/
def applyHeader (h : List Line) (t : MacroTable) : MacroTable :=
  h.foldl applyLine t

/-- State of a boolean build flag. -/
inductive FlagState where
  | enabled
  | disabled
deriving DecidableEq, Repr

/-- A feature flag is tested with `#ifdef`: it is enabled exactly when its
name is defined, whatever the replacement list. -/
def flagState (t : MacroTable) (n : String) : FlagState :=
  if (t n).isSome then .enabled else .disabled

/-! ## Engine: the layered resolution and validation engine -/

/-- Modelled from the spec: the error kinds of section 7; the engine has no
source file in the repository. -/
inductive EngineError where
  | UnknownFlag (name : String)
  | DuplicateFlagDefinition (name : String)
  | DanglingConstraint (flag other : String)
  | DuplicatePriority
  | DuplicateAssertionInLayer (layer : String)
  | PreconditionViolation
deriving DecidableEq, Repr

/-- Modelled from the spec: `ConstraintRef` of section 3 (the engine is not in
the repository). -/
inductive ConstraintRef where
  | Excludes (otherFlag : String)
  | Requires (otherFlag : String)
deriving DecidableEq, Repr

/-- Modelled from the spec: the `otherFlag` a `ConstraintRef` of section 3 names. -/
def ConstraintRef.otherFlag : ConstraintRef → String
  | .Excludes o => o
  | .Requires o => o

/-- Modelled from the spec: `FlagDefinition` of section 3 (the engine is not
in the repository).  The constraint set is kept as a list; a repeated member
counts once. -/
structure FlagDefinition where
  name : String
  defaultState : FlagState
  description : String
  constraints : List ConstraintRef
deriving DecidableEq, Repr

/-- Modelled from the spec: `FlagRegistry` of sections 3 and 4.1 (the engine
is not in the repository): the flag definitions, in registration order. -/
structure FlagRegistry where
  defs : List FlagDefinition
deriving DecidableEq, Repr

/-- Modelled from the spec: `allNames()` of section 4.1. -/
def FlagRegistry.allNames (R : FlagRegistry) : List String :=
  R.defs.map (·.name)

/-- Modelled from the spec: `lookup(name)` of section 4.1, failing with
`UnknownFlag` when the name is absent. -/
def FlagRegistry.lookup (R : FlagRegistry) (name : String) : Except EngineError FlagDefinition :=
  match R.defs.find? (fun d => d.name = name) with
  | some d => .ok d
  | none => .error (.UnknownFlag name)

/-- Modelled from the spec: the duplicate-name check of registry construction
(section 4.1): the first name that occurs twice. -/
def firstDuplicate : List String → Option String
  | [] => none
  | n :: ns => if n ∈ ns then some n else firstDuplicate ns

/-- Modelled from the spec: the dangling-constraint check of registry
construction (section 4.1): the first constraint naming a flag outside `known`. -/
def firstDangling (known : List String) : List FlagDefinition → Option (String × String)
  | [] => none
  | d :: ds =>
    match d.constraints.find? (fun c => c.otherFlag ∉ known) with
    | some c => some (d.name, c.otherFlag)
    | none => firstDangling known ds

/-- Modelled from the spec: registry construction of section 4.1, failing with
`DuplicateFlagDefinition` if two definitions share a name and with
`DanglingConstraint` if a constraint names an unregistered flag. -/
def FlagRegistry.build (defs : List FlagDefinition) : Except EngineError FlagRegistry :=
  match firstDuplicate (defs.map (·.name)) with
  | some n => .error (.DuplicateFlagDefinition n)
  | none =>
    match firstDangling (defs.map (·.name)) defs with
    | some (f, o) => .error (.DanglingConstraint f o)
    | none => .ok ⟨defs⟩

/-- Modelled from the spec: `Assertion` of section 3 (the engine is not in the
repository). -/
structure Assertion where
  flagName : String
  state : FlagState
deriving DecidableEq, Repr

/-- Modelled from the spec: `Layer` of section 3 (the engine is not in the
repository). -/
structure Layer where
  identifier : String
  priority : Int
  assertions : List Assertion
deriving DecidableEq, Repr

/-- Modelled from the spec: the conflict check of layer construction (section
4.2): the source asserts some flag twice with different states. -/
def conflicting (src : List Assertion) : Bool :=
  src.any fun a => src.any fun b => a.flagName == b.flagName && a.state != b.state

/-- Modelled from the spec: layer construction of sections 3 and 4.2, failing
with `DuplicateAssertionInLayer` when the source asserts the same flag twice
with conflicting states; the same assertion twice is kept once. -/
def Layer.build (identifier : String) (priority : Int) (src : List Assertion) :
    Except EngineError Layer :=
  if conflicting src then .error (.DuplicateAssertionInLayer identifier)
  else .ok ⟨identifier, priority, src.dedup⟩

/-- Modelled from the spec: `LayerSet` of section 3 (the engine is not in the
repository): the layers in ascending priority. -/
structure LayerSet where
  layers : List Layer
deriving DecidableEq, Repr

/-- Modelled from the spec: layer-set construction of section 4.2: the layers,
given in any order, are put in ascending priority; two layers with one
priority fail with `DuplicatePriority`. -/
def LayerSet.build (ls : List Layer) : Except EngineError LayerSet :=
  if (ls.map (·.priority)).Nodup then
    .ok ⟨ls.insertionSort fun a b => a.priority ≤ b.priority⟩
  else .error .DuplicatePriority

/-- Modelled from the spec: `ResolvedEntry` of section 3 (the engine is not in
the repository). -/
structure ResolvedEntry where
  flagName : String
  finalState : FlagState
  sourceLayerIdentifier : String
deriving DecidableEq, Repr

/-- Modelled from the spec: `ResolvedConfiguration` of section 3 (the engine
is not in the repository): one entry per registered flag, in registry order. -/
structure ResolvedConfiguration where
  entries : List ResolvedEntry
deriving DecidableEq, Repr

/-- Modelled from the spec: the `ResolvedEntry` a configuration maps a flag
name to (section 3). -/
def ResolvedConfiguration.entry? (c : ResolvedConfiguration) (name : String) :
    Option ResolvedEntry :=
  c.entries.find? fun e => e.flagName = name

/-- Modelled from the spec: the `finalState` a configuration gives a flag
(section 3). -/
def ResolvedConfiguration.state? (c : ResolvedConfiguration) (name : String) :
    Option FlagState :=
  (c.entry? name).map (·.finalState)

/-- Modelled from the spec: the overwrite step of `resolve` (section 4.3): the
entry of `name` gets the asserted state and the asserting layer. -/
def ResolvedConfiguration.overwrite (c : ResolvedConfiguration) (name : String)
    (s : FlagState) (layer : String) : ResolvedConfiguration :=
  ⟨c.entries.map fun e => if e.flagName = name then ⟨name, s, layer⟩ else e⟩

/-- Modelled from the spec: the start of `resolve` (section 4.3): every flag at
its default, with provenance "default". -/
def initialConfiguration (R : FlagRegistry) : ResolvedConfiguration :=
  ⟨R.defs.map fun d => ⟨d.name, d.defaultState, "default"⟩⟩

/-- Modelled from the spec: one assertion of a layer applied during `resolve`
(section 4.3); an unknown flag name aborts with `UnknownFlag`. -/
def applyAssertion (R : FlagRegistry) (layer : String) (c : ResolvedConfiguration)
    (a : Assertion) : Except EngineError ResolvedConfiguration :=
  match R.lookup a.flagName with
  | .ok d => .ok (c.overwrite d.name a.state layer)
  | .error e => .error e

/-- Modelled from the spec: all assertions of one layer applied during
`resolve` (section 4.3). -/
def applyLayer (R : FlagRegistry) (c : ResolvedConfiguration) (l : Layer) :
    Except EngineError ResolvedConfiguration :=
  l.assertions.foldlM (applyAssertion R l.identifier) c

/-- Modelled from the spec: `resolve(registry, layerSet)` of section 4.3 (the
engine is not in the repository): defaults first, then the layers in
ascending priority, each assertion overwriting the flag's entry. -/
def resolve (R : FlagRegistry) (L : LayerSet) : Except EngineError ResolvedConfiguration :=
  L.layers.foldlM (applyLayer R) (initialConfiguration R)

/-- Modelled from the spec: the kind recorded in a `Violation` (section 4.4). -/
inductive ConstraintKind where
  | Excludes
  | Requires
deriving DecidableEq, Repr

/-- Modelled from the spec: the `Violation` record of section 4.4 (the engine
is not in the repository). -/
structure Violation where
  flag : String
  constraintKind : ConstraintKind
  otherFlag : String
  flagSource : Option String
  otherSource : Option String
deriving DecidableEq, Repr

/-- Modelled from the spec: one constraint of one flag evaluated against the
final states (sections 3 and 4.4): `Excludes` is violated when both ends are
enabled, `Requires` when this flag is enabled and the other disabled. -/
def checkConstraint (c : ResolvedConfiguration) (flag : String) :
    ConstraintRef → Option Violation
  | .Excludes o =>
    if c.state? flag = some .enabled ∧ c.state? o = some .enabled then
      some ⟨flag, .Excludes, o, (c.entry? flag).map (·.sourceLayerIdentifier),
        (c.entry? o).map (·.sourceLayerIdentifier)⟩
    else none
  | .Requires o =>
    if c.state? flag = some .enabled ∧ c.state? o = some .disabled then
      some ⟨flag, .Requires, o, (c.entry? flag).map (·.sourceLayerIdentifier),
        (c.entry? o).map (·.sourceLayerIdentifier)⟩
    else none

/-- Modelled from the spec: the constraints a registry declares, each with
the flag that declares it, in registry order (sections 3 and 4.4). -/
def declaredConstraints (R : FlagRegistry) : List (String × ConstraintRef) :=
  R.defs.flatMap fun d => d.constraints.map fun k => (d.name, k)

/-- Modelled from the spec: two declarations are one constraint when they are
equal (the constraints of a flag are a set) or when they are the two ends of
one exclusion (section 3: `Excludes` is symmetric). -/
def sameConstraint (a b : String × ConstraintRef) : Bool :=
  decide (a = b ∨ (a.2 = .Excludes b.1 ∧ b.2 = .Excludes a.1))

/-- Modelled from the spec: the declared constraints with each constraint
kept once, at its first declaration; `seen` holds the declarations already
kept. -/
def distinctConstraints (seen : List (String × ConstraintRef)) :
    List (String × ConstraintRef) → List (String × ConstraintRef)
  | [] => []
  | x :: xs =>
    if seen.any (sameConstraint x) then distinctConstraints seen xs
    else x :: distinctConstraints (x :: seen) xs

/-- Modelled from the spec: `validate(resolvedConfiguration, registry)` of
section 4.4 (the engine is not in the repository): every constraint the
flag definitions declare is evaluated, in registry order, and every violation
collected.  An exclusion declared on both of its ends is one constraint
(section 3) and is reported once (section 8), for the end declared first. -/
def validate (c : ResolvedConfiguration) (R : FlagRegistry) : List Violation :=
  (distinctConstraints [] (declaredConstraints R)).filterMap
    fun p => checkConstraint c p.1 p.2

/-! ## Bridge: override headers as engine layers -/

/-- The flag assertion a line makes, in the layer source format of the
engine (`ENABLE name` / `DISABLE name`): a `#define` with an empty replacement
list enables, an `#undef` disables.  A `#define` that carries a replacement
list is not a flag assertion, and comment and blank lines are skipped. -/
def Line.assertion? : Line → Option Assertion
  | .define n b => if b = "" then some ⟨n, .enabled⟩ else none
  | .undef n => some ⟨n, .disabled⟩
  | .comment => none
  | .blank => none

/-- A line is valued when it is a `#define` with a non-empty replacement list. -/
def Line.valued : Line → Bool
  | .define _ b => b != ""
  | _ => false

/-- The header line that an `ENABLE` / `DISABLE` assertion stands for. -/
def renderAssertion : Assertion → Line
  | ⟨n, .enabled⟩ => .define n ""
  | ⟨n, .disabled⟩ => .undef n

/-- The directives of a header: its lines without comments and blanks. -/
def directives (h : List Line) : List Line :=
  h.filter fun l => l.name?.isSome

/-- The assertions of a header in the engine's layer source format. -/
def assertionsOf (h : List Line) : List Assertion :=
  h.filterMap Line.assertion?

/-- The last line of both headers, the one directive that carries a value. -/
def maxModulesLine : Line := .define "MAX_MODULES" "16"

/-- Line 28 of `common.h`. -/
def undefAoeLine : Line := Line.undef "SANBOOT_PROTO_AOE"

/-- Modelled from the spec: what one layer does in `resolve` (section 4.3)
when every assertion names a registered flag: the assertions overwrite the
entries one after the other. -/
def Layer.run (l : Layer) (c : ResolvedConfiguration) : ResolvedConfiguration :=
  l.assertions.foldl (fun c a => c.overwrite a.flagName a.state l.identifier) c

/-- Modelled from the spec: a violation names the two flags `x` and `y`
(section 8), in either role. -/
def Violation.names (v : Violation) (x y : String) : Bool :=
  (v.flag == x && v.otherFlag == y) || (v.flag == y && v.otherFlag == x)

/-- The five SAN-boot protocol flags. -/
def sanbootFlags : List String :=
  ["SANBOOT_PROTO_HTTP", "SANBOOT_PROTO_AOE", "SANBOOT_PROTO_FCP", "SANBOOT_PROTO_IB_SRP",
    "SANBOOT_PROTO_ISCSI"]

/-- The registry of the specification's examples (section 8): flags `A` and
`B`, both disabled by default, `A` excluding `B`. -/
def exampleDefs : List FlagDefinition :=
  [⟨"A", .disabled, "", [.Excludes "B"]⟩, ⟨"B", .disabled, "", []⟩]

/-- Layer `base` of the specification's examples: priority 0, enables `A`. -/
def baseLayer : Layer := ⟨"base", 0, [⟨"A", .enabled⟩]⟩

/-- Layer `override` of the specification's first example: priority 10,
enables `B`. -/
def overrideLayer : Layer := ⟨"override", 10, [⟨"B", .enabled⟩]⟩

/-- Layer `override` of the specification's second example: priority 10,
disables `A`. -/
def overrideLayer2 : Layer := ⟨"override", 10, [⟨"A", .disabled⟩]⟩

/-- `common.h` as an engine layer of a given priority. -/
def commonLayer (p : Int) : Layer := ⟨"common.h", p, assertionsOf common_h⟩

/-- `general.hua.h` as an engine layer of a given priority. -/
def huaLayer (p : Int) : Layer := ⟨"general.hua.h", p, assertionsOf general_hua_h⟩

/-- A registry with exactly the flags the two headers assert, in the default
state given. -/
def headerDefs (s : FlagState) : List FlagDefinition :=
  ((assertionsOf common_h).map (·.flagName) ++ ["IMAGE_COMBOOT"]).map
    fun n => ⟨n, s, "", []⟩

/-- A registry with exactly the flags the two headers assert, in the default
state given, in which each SAN-boot protocol flag excludes the four others. -/
def sanbootDefs (s : FlagState) : List FlagDefinition :=
  ((assertionsOf common_h).map (·.flagName) ++ ["IMAGE_COMBOOT"]).map fun n =>
    ⟨n, s, "",
      if n ∈ sanbootFlags then (sanbootFlags.filter fun m => m ≠ n).map .Excludes else []⟩

/-- The state `common.h` gives a SAN-boot protocol flag: only the HTTP SAN
protocol is kept. -/
def sanbootState (n : String) : FlagState :=
  if n = "SANBOOT_PROTO_HTTP" then .enabled else .disabled

/-! ## Preproc: general facts -/

theorem names_cons (l : Line) (h : List Line) :
    names (l :: h) = (match l.name? with | some n => [n] | none => []) ++ names h := by
  unfold names
  cases hl : l.name? <;> simp [List.filterMap_cons, hl]

theorem applyLine_of_ne (t : MacroTable) (l : Line) (n : String) (h : l.name? ≠ some n) :
    applyLine t l n = t n := by
  cases l <;> simp_all [applyLine, Line.name?]
  all_goals (intro h'; exact absurd h'.symm h)

theorem applyLine_of_eq (t u : MacroTable) (l : Line) (n : String) (h : l.name? = some n) :
    applyLine t l n = applyLine u l n := by
  cases l <;> simp_all [applyLine, Line.name?]

theorem applyHeader_cons (l : Line) (h : List Line) (t : MacroTable) :
    applyHeader (l :: h) t = applyHeader h (applyLine t l) := rfl

/-- Frame: a header leaves every name it has no directive for as it was. -/
theorem applyHeader_of_not_mem (h : List Line) (t : MacroTable) (n : String)
    (hn : n ∉ names h) : applyHeader h t n = t n := by
  induction h generalizing t with
  | nil => rfl
  | cons l ls ih =>
    rw [applyHeader_cons]
    have h1 : l.name? ≠ some n := by
      intro hl
      apply hn
      simp [names_cons, hl]
    have h2 : n ∉ names ls := by
      intro hm
      apply hn
      simp [names_cons, hm]
    rw [ih _ h2, applyLine_of_ne t l n h1]

/-- A name that a header has a directive for ends in a state that does not
depend on the table the header was applied to. -/
theorem applyHeader_of_mem (h : List Line) (t u : MacroTable) (n : String)
    (hn : n ∈ names h) : applyHeader h t n = applyHeader h u n := by
  induction h generalizing t u with
  | nil => simp [names] at hn
  | cons l ls ih =>
    rw [applyHeader_cons, applyHeader_cons]
    by_cases hm : n ∈ names ls
    · exact ih _ _ hm
    · have hl : l.name? = some n := by
        cases hl : l.name? with
        | none => simp [names_cons, hl] at hn; exact absurd hn hm
        | some m =>
          simp [names_cons, hl] at hn
          rcases hn with rfl | hn
          · rfl
          · exact absurd hn hm
      rw [applyHeader_of_not_mem ls _ n hm, applyHeader_of_not_mem ls _ n hm]
      exact applyLine_of_eq t u l n hl

/-- Applying a header twice is the same as applying it once. -/
theorem applyHeader_idem (h : List Line) (t : MacroTable) :
    applyHeader h (applyHeader h t) = applyHeader h t := by
  funext n
  by_cases hn : n ∈ names h
  · exact applyHeader_of_mem h _ _ n hn
  · rw [applyHeader_of_not_mem h _ n hn]

/-- Two headers that end every name they share in the same state commute. -/
theorem applyHeader_comm (g h : List Line)
    (agree : ∀ n ∈ names g, n ∈ names h →
      applyHeader g MacroTable.empty n = applyHeader h MacroTable.empty n)
    (t : MacroTable) :
    applyHeader h (applyHeader g t) = applyHeader g (applyHeader h t) := by
  funext n
  by_cases hg : n ∈ names g <;> by_cases hh : n ∈ names h
  · rw [applyHeader_of_mem h _ MacroTable.empty n hh, applyHeader_of_mem g _ MacroTable.empty n hg]
    exact (agree n hg hh).symm
  · rw [applyHeader_of_not_mem h _ n hh]
    exact applyHeader_of_mem g _ _ n hg
  · rw [applyHeader_of_not_mem g _ n hg]
    exact applyHeader_of_mem h _ _ n hh
  · rw [applyHeader_of_not_mem h _ n hh, applyHeader_of_not_mem g _ n hg,
      applyHeader_of_not_mem g _ n hg, applyHeader_of_not_mem h _ n hh]

theorem common_hua_agree : ∀ n ∈ names common_h, n ∈ names general_hua_h →
    applyHeader common_h MacroTable.empty n = applyHeader general_hua_h MacroTable.empty n := by
  decide

/-! ## Engine: general facts -/

theorem firstDuplicate_eq_none {ns : List String} (h : firstDuplicate ns = none) : ns.Nodup := by
  induction ns with
  | nil => exact List.nodup_nil
  | cons n ns ih =>
    unfold firstDuplicate at h
    split at h
    · cases h
    · rename_i hn
      exact List.nodup_cons.mpr ⟨hn, ih h⟩

theorem firstDangling_eq_none {known : List String} {defs : List FlagDefinition}
    (h : firstDangling known defs = none) :
    ∀ d ∈ defs, ∀ c ∈ d.constraints, c.otherFlag ∈ known := by
  induction defs with
  | nil => intro d hd; cases hd
  | cons d ds ih =>
    unfold firstDangling at h
    split at h
    · cases h
    · rename_i hf
      intro e he c hc
      rcases List.mem_cons.mp he with rfl | he
      · have := List.find?_eq_none.mp hf c hc
        simpa using this
      · exact ih h e he c hc

/-- What a successful registry construction guarantees. -/
theorem registry_build_ok {defs : List FlagDefinition} {R : FlagRegistry}
    (h : FlagRegistry.build defs = .ok R) :
    R.defs = defs ∧ R.allNames.Nodup ∧
      ∀ d ∈ R.defs, ∀ c ∈ d.constraints, c.otherFlag ∈ R.allNames := by
  unfold FlagRegistry.build at h
  split at h
  · cases h
  · rename_i h1
    split at h
    · cases h
    · rename_i h2
      cases h
      exact ⟨rfl, firstDuplicate_eq_none h1, firstDangling_eq_none h2⟩

theorem lookup_of_mem (R : FlagRegistry) {n : String} (h : n ∈ R.allNames) :
    ∃ d, R.lookup n = .ok d ∧ d.name = n := by
  unfold FlagRegistry.lookup
  cases hf : R.defs.find? (fun d => d.name = n) with
  | none =>
    exfalso
    obtain ⟨d, hd, rfl⟩ := List.mem_map.mp h
    have := List.find?_eq_none.mp hf d hd
    simp at this
  | some d =>
    refine ⟨d, rfl, ?_⟩
    have := List.find?_some hf
    simpa using this

theorem applyAssertion_ok (R : FlagRegistry) (i : String) (c : ResolvedConfiguration)
    (a : Assertion) (h : a.flagName ∈ R.allNames) :
    applyAssertion R i c a = .ok (c.overwrite a.flagName a.state i) := by
  obtain ⟨d, hd, hn⟩ := lookup_of_mem R h
  simp [applyAssertion, hd, hn]

theorem foldlM_applyAssertion_ok (R : FlagRegistry) (i : String) (as : List Assertion)
    (c : ResolvedConfiguration) (h : ∀ a ∈ as, a.flagName ∈ R.allNames) :
    as.foldlM (applyAssertion R i) c =
      .ok (as.foldl (fun c a => c.overwrite a.flagName a.state i) c) := by
  induction as generalizing c with
  | nil => rfl
  | cons a as ih =>
    rw [List.foldlM_cons, applyAssertion_ok R i c a (h a (List.mem_cons_self _ _))]
    exact ih _ (fun b hb => h b (List.mem_cons_of_mem _ hb))

theorem applyLayer_ok (R : FlagRegistry) (c : ResolvedConfiguration) (l : Layer)
    (h : ∀ a ∈ l.assertions, a.flagName ∈ R.allNames) :
    applyLayer R c l = .ok (l.run c) :=
  foldlM_applyAssertion_ok R l.identifier l.assertions c h

theorem foldlM_applyLayer_ok (R : FlagRegistry) (ls : List Layer) (c : ResolvedConfiguration)
    (h : ∀ l ∈ ls, ∀ a ∈ l.assertions, a.flagName ∈ R.allNames) :
    ls.foldlM (applyLayer R) c = .ok (ls.foldl (fun c l => l.run c) c) := by
  induction ls generalizing c with
  | nil => rfl
  | cons l ls ih =>
    rw [List.foldlM_cons, applyLayer_ok R c l (h l (List.mem_cons_self _ _))]
    exact ih _ (fun m hm => h m (List.mem_cons_of_mem _ hm))

/-- With every assertion naming a registered flag, `resolve` succeeds and is
the run of the layers, lowest priority first, over the defaults. -/
theorem resolve_ok (R : FlagRegistry) (L : LayerSet)
    (h : ∀ l ∈ L.layers, ∀ a ∈ l.assertions, a.flagName ∈ R.allNames) :
    resolve R L = .ok (L.layers.foldl (fun c l => l.run c) (initialConfiguration R)) :=
  foldlM_applyLayer_ok R L.layers _ h

theorem overwrite_names (c : ResolvedConfiguration) (n : String) (s : FlagState) (i : String) :
    (c.overwrite n s i).entries.map (·.flagName) = c.entries.map (·.flagName) := by
  simp only [ResolvedConfiguration.overwrite, List.map_map]
  apply List.map_congr_left
  intro e _
  by_cases h : e.flagName = n <;> simp [h]

theorem overwrite_entry_ne (c : ResolvedConfiguration) (n f : String) (s : FlagState)
    (i : String) (h : n ≠ f) : (c.overwrite n s i).entry? f = c.entry? f := by
  obtain ⟨es⟩ := c
  simp only [ResolvedConfiguration.overwrite, ResolvedConfiguration.entry?]
  induction es with
  | nil => rfl
  | cons e es ih =>
    by_cases he : e.flagName = n
    · have : ¬ e.flagName = f := fun h' => h (he.symm.trans h')
      simp [List.find?_cons, he, h, this, ih]
    · by_cases hf : e.flagName = f
      · have hfn : ¬ f = n := fun h' => h h'.symm
        simp [List.find?_cons, hf, hfn]
      · simp [List.find?_cons, he, hf, ih]

theorem overwrite_entry_eq (c : ResolvedConfiguration) (n : String) (s : FlagState)
    (i : String) (h : n ∈ c.entries.map (·.flagName)) :
    (c.overwrite n s i).entry? n = some ⟨n, s, i⟩ := by
  obtain ⟨es⟩ := c
  simp only [ResolvedConfiguration.overwrite, ResolvedConfiguration.entry?]
  induction es with
  | nil => simp at h
  | cons e es ih =>
    by_cases he : e.flagName = n
    · simp [List.find?_cons, he]
    · have h' : n ∈ es.map (·.flagName) := by
        simp only [List.map_cons, List.mem_cons] at h
        rcases h with h | h
        · exact absurd h.symm he
        · exact h
      simp [List.find?_cons, he, ih h']

theorem run_names (l : Layer) (c : ResolvedConfiguration) :
    (l.run c).entries.map (·.flagName) = c.entries.map (·.flagName) := by
  unfold Layer.run
  generalize l.assertions = as
  induction as generalizing c with
  | nil => rfl
  | cons a as ih => rw [List.foldl_cons, ih, overwrite_names]

/-- Frame for one layer: a flag the layer does not assert keeps its entry. -/
theorem run_entry_frame (l : Layer) (c : ResolvedConfiguration) (f : String)
    (h : ∀ a ∈ l.assertions, a.flagName ≠ f) : (l.run c).entry? f = c.entry? f := by
  unfold Layer.run
  generalize l.identifier = i
  generalize l.assertions = as at h
  induction as generalizing c with
  | nil => rfl
  | cons a as ih =>
    rw [List.foldl_cons, ih _ (fun b hb => h b (List.mem_cons_of_mem _ hb)),
      overwrite_entry_ne _ _ _ _ _ (h a (List.mem_cons_self _ _))]

/-- A flag the layer asserts, always with state `s`, gets state `s` and the
layer as provenance. -/
theorem run_entry_hit (l : Layer) (c : ResolvedConfiguration) (f : String) (s : FlagState)
    (hc : f ∈ c.entries.map (·.flagName))
    (hex : ∃ a ∈ l.assertions, a.flagName = f)
    (hs : ∀ a ∈ l.assertions, a.flagName = f → a.state = s) :
    (l.run c).entry? f = some ⟨f, s, l.identifier⟩ := by
  unfold Layer.run
  generalize l.identifier = i
  generalize l.assertions = as at hex hs
  induction as generalizing c with
  | nil => obtain ⟨a, ha, _⟩ := hex; cases ha
  | cons a as ih =>
    rw [List.foldl_cons]
    by_cases hlater : ∃ b ∈ as, b.flagName = f
    · exact ih _ (by rw [overwrite_names]; exact hc) hlater
        (fun b hb => hs b (List.mem_cons_of_mem _ hb))
    · have hfr : ∀ b ∈ as, b.flagName ≠ f := fun b hb hbf => hlater ⟨b, hb, hbf⟩
      have ha : a.flagName = f := by
        obtain ⟨b, hb, hbf⟩ := hex
        rcases List.mem_cons.mp hb with rfl | hb
        · exact hbf
        · exact absurd hbf (hfr b hb)
      have hrun := run_entry_frame ⟨i, 0, as⟩ (c.overwrite a.flagName a.state i) f hfr
      simp only [Layer.run] at hrun
      rw [hrun, ha, hs a (List.mem_cons_self _ _) ha]
      exact overwrite_entry_eq c f s i hc

theorem foldl_run_names (ls : List Layer) (c : ResolvedConfiguration) :
    (ls.foldl (fun c l => l.run c) c).entries.map (·.flagName) = c.entries.map (·.flagName) := by
  induction ls generalizing c with
  | nil => rfl
  | cons l ls ih => rw [List.foldl_cons, ih, run_names]

theorem foldl_run_entry_frame (ls : List Layer) (c : ResolvedConfiguration) (f : String)
    (h : ∀ l ∈ ls, ∀ a ∈ l.assertions, a.flagName ≠ f) :
    (ls.foldl (fun c l => l.run c) c).entry? f = c.entry? f := by
  induction ls generalizing c with
  | nil => rfl
  | cons l ls ih =>
    rw [List.foldl_cons, ih _ (fun m hm => h m (List.mem_cons_of_mem _ hm)),
      run_entry_frame l c f (h l (List.mem_cons_self _ _))]

theorem initialConfiguration_names (R : FlagRegistry) :
    (initialConfiguration R).entries.map (·.flagName) = R.allNames := by
  simp [initialConfiguration, FlagRegistry.allNames, List.map_map, Function.comp_def]

theorem initialConfiguration_entry (R : FlagRegistry) (hR : R.allNames.Nodup)
    (d : FlagDefinition) (hd : d ∈ R.defs) :
    (initialConfiguration R).entry? d.name = some ⟨d.name, d.defaultState, "default"⟩ := by
  obtain ⟨ds⟩ := R
  simp only [initialConfiguration, ResolvedConfiguration.entry?, FlagRegistry.allNames] at *
  induction ds with
  | nil => cases hd
  | cons e es ih =>
    simp only [List.map_cons, List.nodup_cons] at hR
    rcases List.mem_cons.mp hd with rfl | hd
    · simp [List.find?_cons]
    · have hne : e.name ≠ d.name := by
        intro h
        exact hR.1 (h ▸ List.mem_map_of_mem _ hd)
      simp [List.find?_cons, hne, ih hR.2 hd]

/-- What a successful layer construction guarantees. -/
theorem layer_build_ok {i : String} {p : Int} {src : List Assertion} {l : Layer}
    (h : Layer.build i p src = .ok l) :
    l.identifier = i ∧ l.priority = p ∧ (∀ a, a ∈ l.assertions ↔ a ∈ src) ∧
      ∀ a ∈ src, ∀ b ∈ src, a.flagName = b.flagName → a.state = b.state := by
  unfold Layer.build at h
  split at h
  · cases h
  · rename_i hc
    cases h
    refine ⟨rfl, rfl, fun a => List.mem_dedup, ?_⟩
    intro a ha b hb hab
    by_contra hne
    apply hc
    simp only [conflicting, List.any_eq_true, Bool.and_eq_true, beq_iff_eq, bne_iff_ne]
    exact ⟨a, ha, b, hb, hab, hne⟩

/-- What a successful layer-set construction guarantees. -/
theorem layerSet_build_ok {ls : List Layer} {L : LayerSet} (h : LayerSet.build ls = .ok L) :
    L.layers = ls.insertionSort (fun a b => a.priority ≤ b.priority) ∧
      (ls.map (·.priority)).Nodup ∧ ∀ l, l ∈ L.layers ↔ l ∈ ls := by
  unfold LayerSet.build at h
  split at h
  · rename_i hn
    cases h
    exact ⟨rfl, hn, fun l => (List.perm_insertionSort _ ls).mem_iff⟩
  · cases h

theorem layerSet_build_pair (a b : Layer) (h : a.priority < b.priority) :
    LayerSet.build [a, b] = .ok ⟨[a, b]⟩ ∧ LayerSet.build [b, a] = .ok ⟨[a, b]⟩ := by
  have h1 : a.priority ≠ b.priority := ne_of_lt h
  have h2 : ¬ b.priority ≤ a.priority := not_le.mpr h
  have h3 : a.priority ≤ b.priority := le_of_lt h
  constructor
  · simp [LayerSet.build, h1, List.insertionSort, List.orderedInsert, h3]
  · simp [LayerSet.build, h1, Ne.symm h1, List.insertionSort, List.orderedInsert, h2]

theorem filter_name_singleton (es : List ResolvedEntry) (f : String)
    (hn : (es.map (·.flagName)).Nodup) (hf : f ∈ es.map (·.flagName)) :
    ∃ e, es.filter (fun e => e.flagName = f) = [e] := by
  induction es with
  | nil => simp at hf
  | cons e es ih =>
    simp only [List.map_cons, List.nodup_cons] at hn
    by_cases he : e.flagName = f
    · refine ⟨e, ?_⟩
      have hnone : es.filter (fun e => e.flagName = f) = [] := by
        apply List.filter_eq_nil_iff.mpr
        intro x hx
        simp only [decide_eq_true_eq]
        intro hxf
        exact hn.1 (by rw [he, ← hxf]; exact List.mem_map_of_mem _ hx)
      simp [List.filter_cons, he, hnone]
    · have hf' : f ∈ es.map (·.flagName) := by
        simp only [List.map_cons, List.mem_cons] at hf
        rcases hf with hf | hf
        · exact absurd hf.symm he
        · exact hf
      obtain ⟨x, hx⟩ := ih hn.2 hf'
      exact ⟨x, by simp [List.filter_cons, he, hx]⟩

/-- A pair of layers, given in either order, is resolved lower priority first. -/
theorem resolve_pair_ok (R : FlagRegistry) (A B : Layer) (hp : A.priority < B.priority)
    (hreg : ∀ a ∈ A.assertions ++ B.assertions, a.flagName ∈ R.allNames) :
    ∀ order ∈ [[A, B], [B, A]], LayerSet.build order = .ok ⟨[A, B]⟩ ∧
      resolve R ⟨[A, B]⟩ = .ok (B.run (A.run (initialConfiguration R))) := by
  have hres : resolve R ⟨[A, B]⟩ = .ok (B.run (A.run (initialConfiguration R))) := by
    rw [resolve_ok]
    · rfl
    · intro l hl a ha
      simp only [List.mem_cons, List.mem_singleton, List.not_mem_nil, or_false] at hl
      rcases hl with rfl | rfl
      · exact hreg a (List.mem_append_left _ ha)
      · exact hreg a (List.mem_append_right _ ha)
  intro order ho
  simp only [List.mem_cons, List.mem_singleton, List.not_mem_nil, or_false] at ho
  rcases ho with rfl | rfl
  · exact ⟨(layerSet_build_pair A B hp).1, hres⟩
  · exact ⟨(layerSet_build_pair A B hp).2, hres⟩

/-- Precedence for a pair of layers: a flag the upper layer asserts takes the
state and the identifier of the upper layer. -/
theorem pair_entry_upper (R : FlagRegistry) (A B : Layer) (f : String) (s : FlagState)
    (hreg : f ∈ R.allNames) (hf : ⟨f, s⟩ ∈ B.assertions)
    (hs : ∀ a ∈ B.assertions, a.flagName = f → a.state = s) :
    (B.run (A.run (initialConfiguration R))).entry? f = some ⟨f, s, B.identifier⟩ := by
  apply run_entry_hit B _ f s _ ⟨_, hf, rfl⟩ hs
  rw [run_names, initialConfiguration_names]
  exact hreg

theorem header_layer_build (i : String) (p : Int) :
    Layer.build i p (assertionsOf common_h) = .ok ⟨i, p, assertionsOf common_h⟩ ∧
    Layer.build i p (assertionsOf general_hua_h) = .ok ⟨i, p, assertionsOf general_hua_h⟩ := by
  have h1 : conflicting (assertionsOf common_h) = false := by decide
  have h2 : conflicting (assertionsOf general_hua_h) = false := by decide
  have h3 : (assertionsOf common_h).dedup = assertionsOf common_h :=
    List.Nodup.dedup (by decide)
  have h4 : (assertionsOf general_hua_h).dedup = assertionsOf general_hua_h :=
    List.Nodup.dedup (by decide)
  simp [Layer.build, h1, h2, h3, h4]

theorem one_directive_per_name :
    (∀ l ∈ common_h, ∀ m ∈ common_h, l.name? = m.name? → l.name? = none ∨ l = m) ∧
    (∀ l ∈ general_hua_h, ∀ m ∈ general_hua_h, l.name? = m.name? → l.name? = none ∨ l = m) := by
  decide

theorem hua_agree_common : ∀ n ∈ names general_hua_h, n ≠ "IMAGE_COMBOOT" →
    n ∈ names common_h ∧
      applyHeader general_hua_h MacroTable.empty n = applyHeader common_h MacroTable.empty n := by
  decide

theorem hua_assertions_hold : ∀ a ∈ assertionsOf general_hua_h,
    a.flagName ∈ names general_hua_h ∧
      flagState (applyHeader general_hua_h MacroTable.empty) a.flagName = a.state ∧
      (a.flagName ∈ names common_h →
        flagState (applyHeader common_h MacroTable.empty) a.flagName = a.state) := by
  decide

theorem hua_assertions_unique : ∀ a ∈ assertionsOf general_hua_h,
    ∀ b ∈ assertionsOf general_hua_h, b.flagName = a.flagName → b.state = a.state := by
  decide

theorem sanboot_tables : ∀ n ∈ sanbootFlags,
    n ∈ names common_h ∧ n ∉ names general_hua_h ∧
      flagState (applyHeader common_h MacroTable.empty) n = sanbootState n := by
  decide

theorem sanboot_assertions : ∀ n ∈ sanbootFlags,
    (∃ a ∈ assertionsOf common_h, a.flagName = n) ∧
      (∀ a ∈ assertionsOf common_h, a.flagName = n → a.state = sanbootState n) ∧
      ∀ a ∈ assertionsOf general_hua_h, a.flagName ≠ n := by
  decide

theorem sanboot_filter (st : String → FlagState)
    (h : ∀ n ∈ sanbootFlags, st n = sanbootState n) :
    sanbootFlags.filter (fun n => st n = .enabled) = ["SANBOOT_PROTO_HTTP"] := by
  have h1 := h "SANBOOT_PROTO_HTTP" (by decide)
  have h2 := h "SANBOOT_PROTO_AOE" (by decide)
  have h3 := h "SANBOOT_PROTO_FCP" (by decide)
  have h4 := h "SANBOOT_PROTO_IB_SRP" (by decide)
  have h5 := h "SANBOOT_PROTO_ISCSI" (by decide)
  have e1 : sanbootState "SANBOOT_PROTO_HTTP" = .enabled := by decide
  have e2 : sanbootState "SANBOOT_PROTO_AOE" = .disabled := by decide
  have e3 : sanbootState "SANBOOT_PROTO_FCP" = .disabled := by decide
  have e4 : sanbootState "SANBOOT_PROTO_IB_SRP" = .disabled := by decide
  have e5 : sanbootState "SANBOOT_PROTO_ISCSI" = .disabled := by decide
  rw [e1] at h1; rw [e2] at h2; rw [e3] at h3; rw [e4] at h4; rw [e5] at h5
  simp [sanbootFlags, List.filter_cons, h1, h2, h3, h4, h5]

theorem distinctConstraints_subset (seen l : List (String × ConstraintRef)) :
    ∀ p ∈ distinctConstraints seen l, p ∈ l := by
  induction l generalizing seen with
  | nil => intro p hp; cases hp
  | cons x xs ih =>
    intro p hp
    unfold distinctConstraints at hp
    split at hp
    · exact List.mem_cons_of_mem _ (ih seen p hp)
    · rcases List.mem_cons.mp hp with rfl | hp
      · exact List.mem_cons_self _ _
      · exact List.mem_cons_of_mem _ (ih _ p hp)

theorem mem_declaredConstraints {R : FlagRegistry} {p : String × ConstraintRef} :
    p ∈ declaredConstraints R ↔ ∃ d ∈ R.defs, d.name = p.1 ∧ p.2 ∈ d.constraints := by
  unfold declaredConstraints
  constructor
  · intro h
    obtain ⟨d, hd, hp⟩ := List.mem_flatMap.mp h
    obtain ⟨k, hk, rfl⟩ := List.mem_map.mp hp
    exact ⟨d, hd, rfl, hk⟩
  · rintro ⟨d, hd, hn, hk⟩
    exact List.mem_flatMap.mpr ⟨d, hd, List.mem_map.mpr ⟨p.2, hk, by rw [hn]⟩⟩

/-- With only pairwise exclusions among the SAN-boot flags declared, and the
SAN-boot flags in the states `common.h` gives them, nothing is violated. -/
theorem validate_sanboot (c : ResolvedConfiguration) (R : FlagRegistry)
    (hexcl : ∀ d ∈ R.defs, ∀ k ∈ d.constraints, k = .Excludes k.otherFlag ∧
      k.otherFlag ≠ d.name ∧ d.name ∈ sanbootFlags ∧ k.otherFlag ∈ sanbootFlags)
    (hst : ∀ n ∈ sanbootFlags, c.state? n = some (sanbootState n)) :
    validate c R = [] := by
  unfold validate
  apply List.filterMap_eq_nil_iff.mpr
  intro p hp
  obtain ⟨d, hd, hdn, hk⟩ :=
    mem_declaredConstraints.mp (distinctConstraints_subset _ _ p hp)
  obtain ⟨hke, hne, hdm, hon⟩ := hexcl d hd p.2 hk
  rw [hdn] at hne hdm
  rw [hke]
  simp only [checkConstraint, hst _ hdm, hst _ hon, Option.some.injEq]
  rw [if_neg]
  rintro ⟨h1, h2⟩
  have a1 : p.1 = "SANBOOT_PROTO_HTTP" := by
    unfold sanbootState at h1
    by_contra h
    simp [h] at h1
  have a2 : p.2.otherFlag = "SANBOOT_PROTO_HTTP" := by
    unfold sanbootState at h2
    by_contra h
    simp [h] at h2
  exact hne (a2.trans a1.symm)

theorem common_run_sanboot (R : FlagRegistry) (p : Int)
    (hreg : ∀ a ∈ (commonLayer p).assertions, a.flagName ∈ R.allNames) :
    ∀ n ∈ sanbootFlags,
      ((commonLayer p).run (initialConfiguration R)).state? n = some (sanbootState n) := by
  intro n hn
  obtain ⟨⟨a, ha, han⟩, hs, -⟩ := sanboot_assertions n hn
  unfold ResolvedConfiguration.state?
  rw [run_entry_hit (commonLayer p) _ n (sanbootState n) _ ⟨a, ha, han⟩ hs]
  · rfl
  · rw [initialConfiguration_names, ← han]
    exact hreg a ha

theorem resolve_single_ok (R : FlagRegistry) (A : Layer)
    (hreg : ∀ a ∈ A.assertions, a.flagName ∈ R.allNames) :
    LayerSet.build [A] = .ok ⟨[A]⟩ ∧
      resolve R ⟨[A]⟩ = .ok (A.run (initialConfiguration R)) := by
  constructor
  · simp [LayerSet.build, List.insertionSort, List.orderedInsert]
  · rw [resolve_ok]
    · rfl
    · intro l hl a ha
      simp only [List.mem_singleton] at hl
      subst hl
      exact hreg a ha

theorem sorted_layers_split (ls : List Layer) (hprio : (ls.map (·.priority)).Nodup)
    (B : Layer) (hB : B ∈ ls) :
    ∃ pre post, ls.insertionSort (fun a b => a.priority ≤ b.priority) = pre ++ B :: post ∧
      (∀ l ∈ pre, l ∈ ls) ∧ ∀ l ∈ post, l ∈ ls ∧ B.priority < l.priority := by
  have hperm := List.perm_insertionSort (fun a b : Layer => a.priority ≤ b.priority) ls
  haveI : IsTotal Layer (fun a b => a.priority ≤ b.priority) := ⟨fun a b => le_total _ _⟩
  haveI : IsTrans Layer (fun a b => a.priority ≤ b.priority) := ⟨fun _ _ _ h1 h2 => le_trans h1 h2⟩
  have hsorted := List.sorted_insertionSort (fun a b : Layer => a.priority ≤ b.priority) ls
  obtain ⟨pre, post, hsplit⟩ := List.append_of_mem (hperm.mem_iff.mpr hB)
  refine ⟨pre, post, hsplit, ?_, ?_⟩
  · intro l hl
    exact hperm.mem_iff.mp (hsplit ▸ List.mem_append_left _ hl)
  · intro l hl
    have hmem : l ∈ ls :=
      hperm.mem_iff.mp (hsplit ▸ List.mem_append_right _ (List.mem_cons_of_mem _ hl))
    refine ⟨hmem, ?_⟩
    rw [hsplit] at hsorted
    have hle : B.priority ≤ l.priority :=
      List.rel_of_pairwise_cons (List.pairwise_append.mp hsorted).2.1 hl
    have hnd : ((pre ++ B :: post).map (·.priority)).Nodup := by
      rw [← hsplit]
      exact (hperm.map _).nodup_iff.mpr hprio
    rw [List.map_append, List.map_cons, List.nodup_append] at hnd
    have hne : B.priority ≠ l.priority := by
      intro h
      exact (List.nodup_cons.mp hnd.2.1).1 (h ▸ List.mem_map_of_mem _ hl)
    exact lt_of_le_of_ne hle hne

/-- Precedence in general: among layers of distinct priorities, given in any
order, a flag takes the state and the identifier of the layer of highest
priority that asserts it. -/
theorem resolve_highest_wins (R : FlagRegistry) (ls : List Layer) (B : Layer) (f : String)
    (s : FlagState) (hprio : (ls.map (·.priority)).Nodup)
    (hreg : ∀ l ∈ ls, ∀ a ∈ l.assertions, a.flagName ∈ R.allNames)
    (hB : B ∈ ls) (hf : ⟨f, s⟩ ∈ B.assertions)
    (hs : ∀ a ∈ B.assertions, a.flagName = f → a.state = s)
    (htop : ∀ l ∈ ls, B.priority < l.priority → ∀ a ∈ l.assertions, a.flagName ≠ f) :
    ∃ L c, LayerSet.build ls = .ok L ∧ resolve R L = .ok c ∧
      c.entry? f = some ⟨f, s, B.identifier⟩ := by
  have hL : LayerSet.build ls = .ok ⟨ls.insertionSort fun a b => a.priority ≤ b.priority⟩ := by
    simp [LayerSet.build, hprio]
  obtain ⟨-, -, hmem⟩ := layerSet_build_ok hL
  refine ⟨_, _, hL, resolve_ok R _ (fun l hl => hreg l ((hmem l).mp hl)), ?_⟩
  obtain ⟨pre, post, hsplit, -, hpost⟩ := sorted_layers_split ls hprio B hB
  simp only [hsplit, List.foldl_append, List.foldl_cons]
  rw [foldl_run_entry_frame post _ f (fun l hl => htop l (hpost l hl).1 (hpost l hl).2)]
  apply run_entry_hit B _ f s _ ⟨_, hf, rfl⟩ hs
  rw [foldl_run_names, initialConfiguration_names]
  exact hreg B hB _ hf

/-! ## The claims -/

/-- C1: precedence.  For every registry and every two layers `A`, `B` the
layer construction accepts, `A` of lower priority than `B`, whose assertions
name registered flags and which both assert flag `F`: the layer set is
constructed from `A` and `B` given in either order, `resolve` succeeds, and
the entry of `F` carries the state `B` asserts and the identifier of `B`.
More generally, among any layers of distinct priorities, given in any order,
`F` carries the state and the identifier of the layer of highest priority
that asserts it.
On the code, `general.hua.h` makes the twelve assertions listed; with
`common.h` as the lower and `general.hua.h` as the higher layer, in either
file order, each of the twelve resolves to the state `general.hua.h` gives it
with provenance `general.hua.h`; and under the preprocessor, for every
baseline table, each of the twelve flags has the state `general.hua.h` gives
it once both headers have been read, in either order. -/
theorem precedence_higher_layer_wins :
    (∀ (R : FlagRegistry) (iA iB : String) (pA pB : Int) (srcA srcB : List Assertion)
        (A B : Layer) (F : String) (sA sB : FlagState),
      Layer.build iA pA srcA = .ok A → Layer.build iB pB srcB = .ok B → pA < pB →
      (∀ a ∈ srcA ++ srcB, a.flagName ∈ R.allNames) →
      ⟨F, sA⟩ ∈ srcA → ⟨F, sB⟩ ∈ srcB →
      ∀ order ∈ [[A, B], [B, A]], ∃ L c, LayerSet.build order = .ok L ∧
        resolve R L = .ok c ∧ c.entry? F = some ⟨F, sB, iB⟩) ∧
    (∀ (R : FlagRegistry) (ls : List Layer) (B : Layer) (F : String) (s : FlagState),
      (ls.map (·.priority)).Nodup →
      (∀ l ∈ ls, ∀ a ∈ l.assertions, a.flagName ∈ R.allNames) →
      B ∈ ls → ⟨F, s⟩ ∈ B.assertions →
      (∀ a ∈ B.assertions, a.flagName = F → a.state = s) →
      (∀ l ∈ ls, B.priority < l.priority → ∀ a ∈ l.assertions, a.flagName ≠ F) →
      ∃ L c, LayerSet.build ls = .ok L ∧ resolve R L = .ok c ∧
        c.entry? F = some ⟨F, s, B.identifier⟩) ∧
    assertionsOf general_hua_h =
      [⟨"DIGEST_CMD", .enabled⟩, ⟨"DOWNLOAD_PROTO_HTTPS", .enabled⟩,
        ⟨"IMAGE_TRUST_CMD", .enabled⟩, ⟨"NET_PROTO_IPV6", .enabled⟩,
        ⟨"NSLOOKUP_CMD", .enabled⟩, ⟨"NTP_CMD", .enabled⟩, ⟨"PARAM_CMD", .enabled⟩,
        ⟨"REBOOT_CMD", .enabled⟩, ⟨"VLAN_CMD", .enabled⟩, ⟨"IMAGE_COMBOOT", .disabled⟩,
        ⟨"NET_PROTO_LACP", .disabled⟩, ⟨"NET_PROTO_STP", .disabled⟩] ∧
    (∀ (R : FlagRegistry) (pc ph : Int), pc < ph →
      (∀ a ∈ assertionsOf common_h ++ assertionsOf general_hua_h, a.flagName ∈ R.allNames) →
      ∀ order ∈ [[commonLayer pc, huaLayer ph], [huaLayer ph, commonLayer pc]],
        ∃ L c, LayerSet.build order = .ok L ∧ resolve R L = .ok c ∧
          ∀ a ∈ assertionsOf general_hua_h,
            c.entry? a.flagName = some ⟨a.flagName, a.state, "general.hua.h"⟩) ∧
    (∀ (t : MacroTable), ∀ a ∈ assertionsOf general_hua_h,
      flagState (applyHeader general_hua_h (applyHeader common_h t)) a.flagName = a.state ∧
      flagState (applyHeader common_h (applyHeader general_hua_h t)) a.flagName = a.state) := by
  refine ⟨?_, ?_, by decide, ?_, ?_⟩
  · intro R iA iB pA pB srcA srcB A B F sA sB hA hB hp hreg _ hFB order ho
    obtain ⟨_, hpA, hmA, _⟩ := layer_build_ok hA
    obtain ⟨hiB, hpB, hmB, hcB⟩ := layer_build_ok hB
    have hreg' : ∀ a ∈ A.assertions ++ B.assertions, a.flagName ∈ R.allNames := by
      intro a ha
      rcases List.mem_append.mp ha with ha | ha
      · exact hreg a (List.mem_append_left _ ((hmA a).mp ha))
      · exact hreg a (List.mem_append_right _ ((hmB a).mp ha))
    obtain ⟨h1, h2⟩ := resolve_pair_ok R A B (by rw [hpA, hpB]; exact hp) hreg' order ho
    refine ⟨_, _, h1, h2, ?_⟩
    rw [← hiB]
    apply pair_entry_upper R A B F sB (hreg _ (List.mem_append_right _ hFB)) ((hmB _).mpr hFB)
    intro a ha haF
    exact hcB a ((hmB a).mp ha) ⟨F, sB⟩ hFB haF
  · intro R ls B F s hprio hreg hB hF hs htop
    exact resolve_highest_wins R ls B F s hprio hreg hB hF hs htop
  · intro R pc ph hp hreg order ho
    obtain ⟨h1, h2⟩ := resolve_pair_ok R (commonLayer pc) (huaLayer ph) hp hreg order ho
    refine ⟨_, _, h1, h2, ?_⟩
    intro a ha
    exact pair_entry_upper R (commonLayer pc) (huaLayer ph) a.flagName a.state
      (hreg a (List.mem_append_right _ ha)) ha (fun b hb hba => hua_assertions_unique a ha b hb hba)
  · intro t a ha
    obtain ⟨hn, hh, hc⟩ := hua_assertions_hold a ha
    constructor
    · unfold flagState
      rw [applyHeader_of_mem general_hua_h _ MacroTable.empty _ hn]
      exact hh
    · by_cases hm : a.flagName ∈ names common_h
      · unfold flagState
        rw [applyHeader_of_mem common_h _ MacroTable.empty _ hm]
        exact hc hm
      · unfold flagState
        rw [applyHeader_of_not_mem common_h _ _ hm,
          applyHeader_of_mem general_hua_h _ MacroTable.empty _ hn]
        exact hh

/-- Witness for C1.  The specification's second example: `base` (priority 0)
enables `A`, `override` (priority 10) disables `A`, given highest first; `A`
resolves to disabled from `override`.  For the general form, the first
example: `base` is the highest layer that asserts `A`, so `A` is enabled from
`base`.  On the headers: a registry of the asserted flags, all enabled by default, with `common.h` at priority 0 and
`general.hua.h` at priority 10; and the table that defines every name. -/
theorem precedence_higher_layer_wins_witness :
    (Layer.build "base" 0 [⟨"A", .enabled⟩] = .ok baseLayer ∧
      Layer.build "override" 10 [⟨"A", .disabled⟩] = .ok overrideLayer2 ∧
      ∃ L c, LayerSet.build [overrideLayer2, baseLayer] = .ok L ∧
        resolve ⟨exampleDefs⟩ L = .ok c ∧ c.entry? "A" = some ⟨"A", .disabled, "override"⟩) ∧
    (∃ L c, LayerSet.build [overrideLayer, baseLayer] = .ok L ∧
      resolve ⟨exampleDefs⟩ L = .ok c ∧
      c.entry? "A" = some ⟨"A", .enabled, baseLayer.identifier⟩) ∧
    (∃ L c, LayerSet.build [huaLayer 10, commonLayer 0] = .ok L ∧
      resolve ⟨headerDefs .enabled⟩ L = .ok c ∧
      ∀ a ∈ assertionsOf general_hua_h,
        c.entry? a.flagName = some ⟨a.flagName, a.state, "general.hua.h"⟩) ∧
    flagState (applyHeader general_hua_h (applyHeader common_h (fun _ => some "")))
      "IMAGE_COMBOOT" = .disabled :=
  ⟨⟨rfl, rfl,
      precedence_higher_layer_wins.1 ⟨exampleDefs⟩ "base" "override" 0 10 [⟨"A", .enabled⟩]
        [⟨"A", .disabled⟩] baseLayer overrideLayer2 "A" .enabled .disabled rfl rfl (by decide)
        (by decide) (by decide) (by decide) [overrideLayer2, baseLayer] (by decide)⟩,
    precedence_higher_layer_wins.2.1 ⟨exampleDefs⟩ [overrideLayer, baseLayer] baseLayer "A"
      .enabled (by decide) (by decide) (by decide) (by decide) (by decide) (by decide),
    precedence_higher_layer_wins.2.2.2.1 ⟨headerDefs .enabled⟩ 0 10 (by decide) (by decide)
      [huaLayer 10, commonLayer 0] (by decide),
    ((precedence_higher_layer_wins.2.2.2.2 (fun _ => some "") ⟨"IMAGE_COMBOOT", .disabled⟩
      (by decide)).1)⟩

/-- C2: default fallback.  For every registry, every list of layers the
engine accepts and every registered flag that no layer asserts, `resolve`
succeeds and gives the flag its definition's default state with provenance
"default".  On the code: every name that neither `common.h` nor
`general.hua.h` has a directive for is, after both headers have been read in
either order, exactly as the baseline table had it. -/
theorem default_fallback :
    (∀ (defs : List FlagDefinition) (R : FlagRegistry) (ls : List Layer) (d : FlagDefinition),
      FlagRegistry.build defs = .ok R → (ls.map (·.priority)).Nodup →
      (∀ l ∈ ls, ∀ a ∈ l.assertions, a.flagName ∈ R.allNames) →
      d ∈ defs → (∀ l ∈ ls, ∀ a ∈ l.assertions, a.flagName ≠ d.name) →
      ∃ L c, LayerSet.build ls = .ok L ∧ resolve R L = .ok c ∧
        c.entry? d.name = some ⟨d.name, d.defaultState, "default"⟩) ∧
    (∀ (t : MacroTable) (n : String), n ∉ names common_h → n ∉ names general_hua_h →
      applyHeader general_hua_h (applyHeader common_h t) n = t n ∧
      applyHeader common_h (applyHeader general_hua_h t) n = t n) := by
  constructor
  · intro defs R ls d hR hprio hreg hd hno
    have hL : LayerSet.build ls = .ok ⟨ls.insertionSort fun a b => a.priority ≤ b.priority⟩ := by
      simp [LayerSet.build, hprio]
    obtain ⟨-, -, hmem⟩ := layerSet_build_ok hL
    obtain ⟨hdefs, hnodup, -⟩ := registry_build_ok hR
    refine ⟨_, _, hL, resolve_ok R _ (fun l hl => hreg l ((hmem l).mp hl)), ?_⟩
    rw [foldl_run_entry_frame _ _ _ (fun l hl => hno l ((hmem l).mp hl))]
    exact initialConfiguration_entry R hnodup d (hdefs ▸ hd)
  · intro t n hc hh
    constructor
    · rw [applyHeader_of_not_mem _ _ _ hh, applyHeader_of_not_mem _ _ _ hc]
    · rw [applyHeader_of_not_mem _ _ _ hc, applyHeader_of_not_mem _ _ _ hh]

/-- Witness for C2.  The specification's second example, where no layer
asserts `B`: it resolves to its default, disabled, with provenance "default".
On the code: `BANNER_TIMEOUT`, which `general.hua.h` only names inside a
comment, keeps the baseline's definition. -/
theorem default_fallback_witness :
    (∃ L c, LayerSet.build [overrideLayer2, baseLayer] = .ok L ∧
      resolve ⟨exampleDefs⟩ L = .ok c ∧ c.entry? "B" = some ⟨"B", .disabled, "default"⟩) ∧
    applyHeader general_hua_h (applyHeader common_h (fun _ => some "2")) "BANNER_TIMEOUT" =
      some "2" ∧
    applyHeader common_h (applyHeader general_hua_h (fun _ => some "2")) "BANNER_TIMEOUT" =
      some "2" :=
  ⟨default_fallback.1 exampleDefs ⟨exampleDefs⟩ [overrideLayer2, baseLayer]
      ⟨"B", .disabled, "", []⟩ rfl (by decide) (by decide) (by decide) (by decide),
    default_fallback.2 (fun _ => some "2") "BANNER_TIMEOUT" (by decide) (by decide)⟩

/-- C3: each layer asserts each flag name at most once.  In `common.h`, and
separately in `general.hua.h`, no name occurs in two directives; hence no name
is both `#define`d and `#undef`ed by one file, and building the engine layer of
either file does not fail with `DuplicateAssertionInLayer`, whatever
identifier and priority the layer is given. -/
theorem each_layer_asserts_each_name_once :
    (names common_h).Nodup ∧ (names general_hua_h).Nodup ∧
    (∀ n b, Line.define n b ∈ common_h → Line.undef n ∉ common_h) ∧
    (∀ n b, Line.define n b ∈ general_hua_h → Line.undef n ∉ general_hua_h) ∧
    (∀ (i : String) (p : Int),
      Layer.build i p (assertionsOf common_h) = .ok ⟨i, p, assertionsOf common_h⟩ ∧
      Layer.build i p (assertionsOf general_hua_h) = .ok ⟨i, p, assertionsOf general_hua_h⟩) := by
  refine ⟨by decide, by decide, ?_, ?_, ?_⟩
  · intro n b hd hu
    have := one_directive_per_name.1 _ hd _ hu rfl
    simp [Line.name?] at this
  · intro n b hd hu
    have := one_directive_per_name.2 _ hd _ hu rfl
    simp [Line.name?] at this
  · exact fun i p => header_layer_build i p

/-- Witness for C3 at the first directive of `common.h`: `DIGEST_CMD` is
defined there and not undefined there. -/
theorem each_layer_asserts_each_name_once_witness :
    Line.define "DIGEST_CMD" "" ∈ common_h ∧ Line.undef "DIGEST_CMD" ∉ common_h :=
  ⟨by decide, each_layer_asserts_each_name_once.2.2.1 "DIGEST_CMD" "" (by decide)⟩

/-- C4, as stated, fails: the directive `#define MAX_MODULES 16`, the last
directive of `common.h` and of `general.hua.h`, carries the value `16`; it is
valued, and it is no `ENABLE` / `DISABLE` assertion. -/
theorem max_modules_directive_is_valued :
    maxModulesLine ∈ common_h ∧ maxModulesLine ∈ general_hua_h ∧
    maxModulesLine.valued = true ∧ maxModulesLine.assertion? = none ∧
    ¬ (∀ l ∈ directives common_h ++ directives general_hua_h, l.valued = false) := by
  decide

/-- C4, amended: every directive of `common.h` and of `general.hua.h` other
than `#define MAX_MODULES 16` sets one flag to enabled or disabled and carries
no value, so each file without that one directive is a sequence of
`ENABLE` / `DISABLE` assertions: rendering the assertions gives back exactly
the remaining directives, in file order. -/
theorem directives_boolean_except_max_modules :
    (∀ l ∈ directives common_h ++ directives general_hua_h,
      l ≠ maxModulesLine → l.valued = false ∧ (l.assertion?).map renderAssertion = some l) ∧
    (assertionsOf common_h).map renderAssertion =
      (directives common_h).filter (fun l => l ≠ maxModulesLine) ∧
    (assertionsOf general_hua_h).map renderAssertion =
      (directives general_hua_h).filter (fun l => l ≠ maxModulesLine) := by
  decide

/-- Witness for C4 amended at line 28 of `common.h`, `#undef SANBOOT_PROTO_AOE`. -/
theorem directives_boolean_except_max_modules_witness :
    undefAoeLine ∈ directives common_h ++ directives general_hua_h ∧
    undefAoeLine.valued = false ∧
    (undefAoeLine.assertion?).map renderAssertion = some undefAoeLine :=
  ⟨by decide,
    directives_boolean_except_max_modules.1 undefAoeLine (by decide) (by decide)⟩

/-- C5: the SAN-boot protocols are mutually exclusive in the resolved
configuration.  Under the preprocessor, for every baseline table, after
`common.h` (and also after `general.hua.h` on top of it) the enabled flags
among the five SAN-boot protocol flags are exactly `SANBOOT_PROTO_HTTP`.  In
the engine, for every registry that holds the asserted flags and whose only
constraints are exclusions between two different SAN-boot flags, resolving
`common.h` alone, or `common.h` under `general.hua.h`, succeeds, leaves
exactly `SANBOOT_PROTO_HTTP` enabled among the five, and `validate` returns no
violation. -/
theorem sanboot_http_only :
    (∀ t : MacroTable,
      sanbootFlags.filter (fun n => flagState (applyHeader common_h t) n = .enabled) =
        ["SANBOOT_PROTO_HTTP"] ∧
      sanbootFlags.filter (fun n =>
          flagState (applyHeader general_hua_h (applyHeader common_h t)) n = .enabled) =
        ["SANBOOT_PROTO_HTTP"]) ∧
    (∀ (defs : List FlagDefinition) (R : FlagRegistry) (pc ph : Int),
      FlagRegistry.build defs = .ok R → pc < ph →
      (∀ d ∈ defs, ∀ k ∈ d.constraints, k = .Excludes k.otherFlag ∧
        k.otherFlag ≠ d.name ∧ d.name ∈ sanbootFlags ∧ k.otherFlag ∈ sanbootFlags) →
      ∀ ls ∈ [[commonLayer pc], [commonLayer pc, huaLayer ph]],
        (∀ l ∈ ls, ∀ a ∈ l.assertions, a.flagName ∈ R.allNames) →
        ∃ L c, LayerSet.build ls = .ok L ∧ resolve R L = .ok c ∧
          sanbootFlags.filter (fun n => c.state? n = some .enabled) = ["SANBOOT_PROTO_HTTP"] ∧
          validate c R = []) := by
  constructor
  · intro t
    constructor
    · apply sanboot_filter
      intro n hn
      obtain ⟨hc, -, hs⟩ := sanboot_tables n hn
      unfold flagState
      rw [applyHeader_of_mem common_h t MacroTable.empty n hc]
      exact hs
    · apply sanboot_filter
      intro n hn
      obtain ⟨hc, hh, hs⟩ := sanboot_tables n hn
      unfold flagState
      rw [applyHeader_of_not_mem general_hua_h _ n hh,
        applyHeader_of_mem common_h t MacroTable.empty n hc]
      exact hs
  · intro defs R pc ph hR hp hexcl ls hls hreg
    obtain ⟨hdefs, -, -⟩ := registry_build_ok hR
    have hexcl' : ∀ d ∈ R.defs, ∀ k ∈ d.constraints, k = .Excludes k.otherFlag ∧
        k.otherFlag ≠ d.name ∧ d.name ∈ sanbootFlags ∧ k.otherFlag ∈ sanbootFlags := by
      rw [hdefs]
      exact hexcl
    have hfilter : ∀ c : ResolvedConfiguration,
        (∀ n ∈ sanbootFlags, c.state? n = some (sanbootState n)) →
        sanbootFlags.filter (fun n => c.state? n = some .enabled) = ["SANBOOT_PROTO_HTTP"] := by
      intro c hc
      have := sanboot_filter (fun n => (c.state? n).getD .disabled)
        (fun n hn => by simp [hc n hn])
      rw [← this]
      apply List.filter_congr
      intro n hn
      simp [hc n hn]
    simp only [List.mem_cons, List.mem_singleton, List.not_mem_nil, or_false] at hls
    rcases hls with rfl | rfl
    · have hregC : ∀ a ∈ (commonLayer pc).assertions, a.flagName ∈ R.allNames :=
        hreg _ (List.mem_cons_self _ _)
      have hC := common_run_sanboot R pc hregC
      obtain ⟨h1, h2⟩ := resolve_single_ok R (commonLayer pc) hregC
      exact ⟨_, _, h1, h2, hfilter _ hC, validate_sanboot _ R hexcl' hC⟩
    · have hregC : ∀ a ∈ (commonLayer pc).assertions, a.flagName ∈ R.allNames :=
        hreg _ (List.mem_cons_self _ _)
      have hregH : ∀ a ∈ (huaLayer ph).assertions, a.flagName ∈ R.allNames :=
        hreg _ (List.mem_cons_of_mem _ (List.mem_cons_self _ _))
      have hC := common_run_sanboot R pc hregC
      obtain ⟨h1, h2⟩ := resolve_pair_ok R (commonLayer pc) (huaLayer ph) hp
        (fun a ha => (List.mem_append.mp ha).elim (hregC a) (hregH a))
        [commonLayer pc, huaLayer ph] (List.mem_cons_self _ _)
      have hH : ∀ n ∈ sanbootFlags,
          ((huaLayer ph).run ((commonLayer pc).run (initialConfiguration R))).state? n =
            some (sanbootState n) := by
        intro n hn
        unfold ResolvedConfiguration.state?
        rw [run_entry_frame (huaLayer ph) _ n (sanboot_assertions n hn).2.2]
        exact hC n hn
      exact ⟨_, _, h1, h2, hfilter _ hH, validate_sanboot _ R hexcl' hH⟩

/-- Witness for C5: the registry of the asserted flags, all enabled by
default, in which each SAN-boot flag excludes the four others; `common.h` at
priority 0 under `general.hua.h` at priority 10. -/
theorem sanboot_http_only_witness :
    FlagRegistry.build (sanbootDefs .enabled) = .ok ⟨sanbootDefs .enabled⟩ ∧
    ∃ L c, LayerSet.build [commonLayer 0, huaLayer 10] = .ok L ∧
      resolve ⟨sanbootDefs .enabled⟩ L = .ok c ∧
      sanbootFlags.filter (fun n => c.state? n = some .enabled) = ["SANBOOT_PROTO_HTTP"] ∧
      validate c ⟨sanbootDefs .enabled⟩ = [] :=
  ⟨rfl,
    sanboot_http_only.2 (sanbootDefs .enabled) ⟨sanbootDefs .enabled⟩ 0 10 rfl (by decide)
      (by decide) [commonLayer 0, huaLayer 10] (by decide) (by decide)⟩

/-- C7: totality of `resolve`.  For every registry (a list of definitions the
registry construction accepts) and every list of layers with no two equal
priorities whose assertions all name flags of the registry, the layer set is
constructed, `resolve` succeeds, and its result lists the registry's flags in
registry order; so every flag of the registry has exactly one entry in it,
hence one final state. -/
theorem resolve_total (defs : List FlagDefinition) (R : FlagRegistry) (ls : List Layer)
    (hR : FlagRegistry.build defs = .ok R)
    (hprio : (ls.map (·.priority)).Nodup)
    (hreg : ∀ l ∈ ls, ∀ a ∈ l.assertions, a.flagName ∈ R.allNames) :
    ∃ L c, LayerSet.build ls = .ok L ∧ resolve R L = .ok c ∧
      c.entries.map (·.flagName) = R.allNames ∧
      ∀ f ∈ R.allNames, ∃ e, c.entries.filter (fun e => e.flagName = f) = [e] := by
  have hL : LayerSet.build ls = .ok ⟨ls.insertionSort fun a b => a.priority ≤ b.priority⟩ := by
    simp [LayerSet.build, hprio]
  obtain ⟨-, -, hmem⟩ := layerSet_build_ok hL
  have hnames := foldl_run_names (ls.insertionSort fun a b => a.priority ≤ b.priority)
    (initialConfiguration R)
  rw [initialConfiguration_names] at hnames
  refine ⟨_, _, hL, resolve_ok R _ (fun l hl => hreg l ((hmem l).mp hl)), hnames, ?_⟩
  intro f hf
  apply filter_name_singleton
  · rw [hnames]; exact (registry_build_ok hR).2.1
  · rw [hnames]; exact hf

/-- Witness for C7: the registry and the two layers of the specification's
first example, the layers given highest priority first. -/
theorem resolve_total_witness :
    FlagRegistry.build exampleDefs = .ok ⟨exampleDefs⟩ ∧
    ([overrideLayer, baseLayer].map (·.priority)).Nodup ∧
    ∃ L c, LayerSet.build [overrideLayer, baseLayer] = .ok L ∧
      resolve ⟨exampleDefs⟩ L = .ok c ∧
      c.entries.map (·.flagName) = FlagRegistry.allNames ⟨exampleDefs⟩ ∧
      ∀ f ∈ FlagRegistry.allNames ⟨exampleDefs⟩,
        ∃ e, c.entries.filter (fun e => e.flagName = f) = [e] :=
  ⟨rfl, by decide,
    resolve_total exampleDefs ⟨exampleDefs⟩ [overrideLayer, baseLayer] rfl (by decide)
      (by decide)⟩

/-- C8: the two layers never disagree, so their order does not matter.  The
names both files have a directive for are the twelve listed; each of them is
left by `common.h` in the same state, with the same value, as by
`general.hua.h`, whatever tables the two are applied to; and for every
baseline table, `common.h` then `general.hua.h` gives the same table as
`general.hua.h` then `common.h`. -/
theorem layers_agree_and_commute :
    (names common_h).filter (fun n => n ∈ names general_hua_h) =
      ["DIGEST_CMD", "DOWNLOAD_PROTO_HTTPS", "IMAGE_TRUST_CMD", "NET_PROTO_IPV6",
        "NSLOOKUP_CMD", "NTP_CMD", "PARAM_CMD", "REBOOT_CMD", "VLAN_CMD", "NET_PROTO_LACP",
        "NET_PROTO_STP", "MAX_MODULES"] ∧
    (∀ n ∈ names common_h, n ∈ names general_hua_h → ∀ t u : MacroTable,
      applyHeader common_h t n = applyHeader general_hua_h u n) ∧
    (∀ t : MacroTable,
      applyHeader general_hua_h (applyHeader common_h t) =
        applyHeader common_h (applyHeader general_hua_h t)) ∧
    (∀ (t : MacroTable) (n : String),
      flagState (applyHeader general_hua_h (applyHeader common_h t)) n =
        flagState (applyHeader common_h (applyHeader general_hua_h t)) n) := by
  refine ⟨by decide, ?_, applyHeader_comm _ _ common_hua_agree, ?_⟩
  · intro n hc hh t u
    rw [applyHeader_of_mem common_h t MacroTable.empty n hc,
      applyHeader_of_mem general_hua_h u MacroTable.empty n hh]
    exact common_hua_agree n hc hh
  · intro t n
    rw [applyHeader_comm _ _ common_hua_agree]

/-- Witness for C8 at the valued name `MAX_MODULES`, with `common.h` applied to
the empty table and `general.hua.h` to a table that defines every name as `8`:
both leave `MAX_MODULES` defined as `16`. -/
theorem layers_agree_and_commute_witness :
    "MAX_MODULES" ∈ names common_h ∧ "MAX_MODULES" ∈ names general_hua_h ∧
    applyHeader common_h MacroTable.empty "MAX_MODULES" = some "16" ∧
    applyHeader common_h MacroTable.empty "MAX_MODULES" =
      applyHeader general_hua_h (fun _ => some "8") "MAX_MODULES" :=
  ⟨by decide, by decide, by decide,
    layers_agree_and_commute.2.1 "MAX_MODULES" (by decide) (by decide) _ _⟩

/-- C9: layering `general.hua.h` on top of `common.h` changes at most one
flag.  For every baseline table, `common.h` then `general.hua.h` agrees with
`common.h` alone on every name other than `IMAGE_COMBOOT`, and leaves
`IMAGE_COMBOOT` disabled. -/
theorem hua_over_common_changes_only_image_comboot (t : MacroTable) :
    (∀ n, n ≠ "IMAGE_COMBOOT" →
      applyHeader general_hua_h (applyHeader common_h t) n = applyHeader common_h t n) ∧
    flagState (applyHeader general_hua_h (applyHeader common_h t)) "IMAGE_COMBOOT" = .disabled := by
  constructor
  · intro n hn
    by_cases hh : n ∈ names general_hua_h
    · obtain ⟨hc, he⟩ := hua_agree_common n hh hn
      rw [applyHeader_of_mem general_hua_h _ MacroTable.empty n hh,
        applyHeader_of_mem common_h t MacroTable.empty n hc]
      exact he
    · exact applyHeader_of_not_mem _ _ _ hh
  · have h : applyHeader general_hua_h (applyHeader common_h t) "IMAGE_COMBOOT" =
        applyHeader general_hua_h MacroTable.empty "IMAGE_COMBOOT" :=
      applyHeader_of_mem _ _ _ _ (by decide)
    unfold flagState
    rw [h]
    decide

/-- Witness for C9 at the baseline that defines every name (as `1`) and the
flag `NTP_CMD`. -/
theorem hua_over_common_changes_only_image_comboot_witness :
    "NTP_CMD" ≠ "IMAGE_COMBOOT" ∧
    applyHeader general_hua_h (applyHeader common_h (fun _ => some "1")) "NTP_CMD" =
      applyHeader common_h (fun _ => some "1") "NTP_CMD" :=
  ⟨by decide,
    (hua_over_common_changes_only_image_comboot (fun _ => some "1")).1 "NTP_CMD" (by decide)⟩

/-- C10: applying a layer is idempotent.  For every baseline table and for
each of `common.h` and `general.hua.h`, the directives applied twice in
succession give exactly the table they give applied once. -/
theorem apply_layer_twice (t : MacroTable) :
    applyHeader common_h (applyHeader common_h t) = applyHeader common_h t ∧
    applyHeader general_hua_h (applyHeader general_hua_h t) = applyHeader general_hua_h t :=
  ⟨applyHeader_idem common_h t, applyHeader_idem general_hua_h t⟩

end Smee
